import Mathlib

/-!
Verification development for the blogger_to_hugo conversion script.

The script is shallowly embedded: Python strings become Lean strings or
lists of characters, the filesystem becomes an explicit record of
directories and files, the network becomes a function from URLs to HTTP
responses, and Python exceptions become Except values threaded through
the pipeline.  Library calls used by the script (requests.get, io.open
in wb mode, pathlib, urllib.parse, str methods, re.sub for the one fixed
pattern, yaml.dump, slugify) are modelled by explicit executable Lean
functions; each model notes the library behaviour it reproduces.
-/

/-- Single-quote character (kept out of literals so that quoting code reads
uniformly). -/
def sqc : Char := Char.ofNat 39

/-- Single-quote as a one-character string. -/
def sqcStr : String := String.singleton sqc

/-- Split a character list at every occurrence of the separator, keeping
empty pieces, as the Python str.split method does for a one-character
separator. -/
def splitOnChar (sep : Char) : List Char → List (List Char)
  | [] => [[]]
  | c :: t =>
    if c = sep then [] :: splitOnChar sep t
    else
      match splitOnChar sep t with
      | l :: ls => (c :: l) :: ls
      | [] => [[c]]

/-- Boolean list prefix test used by the replace model. -/
def isPrefixList : List Char → List Char → Bool
  | [], _ => true
  | _ :: _, [] => false
  | a :: as, b :: bs => a == b && isPrefixList as bs

/-- Fuelled scanner behind the model of Python str.replace.  One unit of
fuel is spent per scanning step and every step consumes at least one
character of the input, so fuel equal to the input length never runs out;
for a non-empty pattern the result is exactly Python str.replace: all
non-overlapping occurrences replaced left to right. -/
def replaceAux (pat rep : List Char) : Nat → List Char → List Char
  | _, [] => []
  | 0, l => l
  | fuel + 1, c :: t =>
    if isPrefixList pat (c :: t) && !pat.isEmpty then
      rep ++ replaceAux pat rep fuel ((c :: t).drop pat.length)
    else
      c :: replaceAux pat rep fuel t

/-- Model of Python str.replace (replace all occurrences) for non-empty
patterns; the script only ever builds patterns of the shape /s...&#47;,
which are non-empty. -/
def pyReplace (s pat rep : String) : String :=
  String.mk (replaceAux pat.data rep.data s.data.length s.data)

/-- Zero-padded decimal rendering, the model of a Python format spec such
as 04 or 02 applied to a non-negative integer. -/
def padNum (width n : Nat) : String :=
  let s := toString n
  if s.length < width then String.mk (List.replicate (width - s.length) '0') ++ s else s

/-- An HTTP response as seen by the script: requests.get yields an object
of which only status_code and content (raw bytes, modelled as characters)
are consumed. -/
structure Response where
  status_code : Nat
  content : List Char
deriving DecidableEq

/-- The network, modelled as a pure oracle from URLs to responses. -/
abbrev Net := String → Response

/-- The filesystem under the output root: a set of existing directories
and a map from file paths to contents, both keyed by path components. -/
structure FS where
  dirs : List (List String)
  files : List (List String × List Char)
deriving DecidableEq

/-- Model of opening a file in wb mode and writing bytes: creates the file
or silently truncates and replaces an existing one. -/
def FS.writeFile (fs : FS) (p : List String) (content : List Char) : FS :=
  ⟨fs.dirs, (p, content) :: fs.files.filter (fun kv => kv.1 != p)⟩

/-- Look up the contents of a file. -/
def FS.readFile (fs : FS) (p : List String) : Option (List Char) :=
  (fs.files.find? (fun kv => kv.1 == p)).map (fun kv => kv.2)

/-- All non-empty prefixes of a component path, longest last. -/
def prefixesOf (l : List String) : List (List String) :=
  (List.range l.length).map (fun i => l.take (i + 1))

/-- Model of pathlib mkdir with parents=True (and exist_ok left False):
records the directory and all its ancestors as existing.  The caller is
responsible for the FileExistsError case, matching pathlib which raises
before creating anything when the target itself already exists. -/
def FS.mkdirParents (fs : FS) (p : List String) : FS :=
  ⟨prefixesOf p ++ fs.dirs, fs.files⟩

/-- Errors abort the Python process; the payload carries the message and
the filesystem state at the moment the exception was raised. -/
abbrev PErr := String × FS

/-- Message of the exception raised on a failed download, built exactly as
the f-string in the script. -/
def downloadErrMsg (image_src : String) (status : Nat) : String :=
  "Can" ++ sqcStr ++ "t download image " ++ image_src ++ " ; Status code " ++ toString status

/-- Embedding of download_and_save_image: fetch the URL, raise unless the
status code is exactly 200, otherwise write the response bytes to the
given path (wb mode: silent overwrite). -/
def download_and_save_image (net : Net) (image_src : String) (fullimg_path : List String)
    (fs : FS) : Except PErr FS :=
  let response := net image_src
  if response.status_code != 200 then
    .error (downloadErrMsg image_src response.status_code, fs)
  else
    .ok (fs.writeFile fullimg_path response.content)

/-- Characters allowed in a URL scheme, as in urllib.parse. -/
def schemeChar (c : Char) : Bool := c.isAlphanum || c == '+' || c == '-' || c == '.'

/-- Take the part of the list strictly before the first occurrence of a
character. -/
def takeUntilChar (stop : Char) (l : List Char) : List Char :=
  l.takeWhile (fun c => c != stop)

/-- Strip a leading URL scheme (letters then alphanumeric or plus, minus,
dot, followed by a colon), as urllib.parse.urlparse does. -/
def stripScheme (l : List Char) : List Char :=
  let pre := l.takeWhile (fun c => c != ':')
  let headAlpha :=
    match pre with
    | c :: _ => c.isAlpha
    | [] => false
  if pre.length < l.length && headAlpha && pre.all schemeChar then
    l.drop (pre.length + 1)
  else l

/-- Strip a leading double-slash network location up to the next slash, as
urllib.parse does (the query and fragment have already been removed). -/
def stripNetloc (l : List Char) : List Char :=
  match l with
  | '/' :: '/' :: rest => rest.dropWhile (fun c => c != '/')
  | _ => l

/-- Strip semicolon parameters from the last path segment, the extra step
urlparse performs on top of urlsplit. -/
def stripParams (p : List Char) : List Char :=
  let lastSeg := (p.reverse.takeWhile (fun c => c != '/')).reverse
  let initPart := p.take (p.length - lastSeg.length)
  initPart ++ takeUntilChar ';' lastSeg

/-- Model of urllib.parse.urlparse(url).path: drop the fragment, the
query, the scheme and the network location, then split off semicolon
parameters of the final segment. -/
def urlPath (url : String) : String :=
  String.mk (stripParams (stripNetloc (stripScheme (takeUntilChar '?' (takeUntilChar '#' url.data)))))

/-- Model of a pathlib PurePosixPath: whether the path is absolute plus
its components with empty and single-dot entries dropped. -/
structure PurePath where
  absolute : Bool
  comps : List String
deriving DecidableEq

/-- Parse a string into the pathlib path model. -/
def parsePath (s : String) : PurePath :=
  ⟨(match s.data with
    | '/' :: _ => true
    | _ => false),
   ((splitOnChar '/' s.data).filter (fun c => !c.isEmpty && c != ['.'])).map String.mk⟩

/-- Final component of a path (pathlib name), empty for a bare root or an
empty path. -/
def PurePath.name (p : PurePath) : String := p.comps.getLastD ""

/-- Stem of a file name: pathlib drops the part from the last dot on,
provided that dot is neither the first nor the last character. -/
def stemOfName (n : String) : String :=
  let cs := n.data
  let extLen := (cs.reverse.takeWhile (fun c => c != '.')).length
  if extLen < cs.length && cs.length - extLen - 1 > 0 && extLen > 0 then
    String.mk (cs.take (cs.length - extLen - 1))
  else n

/-- Stem of a path (pathlib stem). -/
def PurePath.stem (p : PurePath) : String := stemOfName (PurePath.name p)

/-- Parent path (pathlib parent): drop the last component; the root and
the empty path are their own parents. -/
def PurePath.parent (p : PurePath) : PurePath :=
  if p.comps.isEmpty then p else ⟨p.absolute, p.comps.dropLast⟩

/-- Rendering of a path (pathlib str): components joined by slashes, a
leading slash when absolute, a single dot for an empty relative path. -/
def PurePath.render (p : PurePath) : String :=
  if p.comps.isEmpty then (if p.absolute then "/" else ".")
  else (if p.absolute then "/" else "") ++ String.mk (List.intercalate ['/'] (p.comps.map String.data))

/-- HTML attributes of one element, as BeautifulSoup exposes them. -/
abbrev Attrs := List (String × String)

/-- Attribute lookup (Python dict access returning None when absent). -/
def lookupAttr (attrs : Attrs) (k : String) : Option String :=
  (attrs.find? (fun kv => kv.1 == k)).map (fun kv => kv.2)

/-- Embedding of the inner resize_if_needed closure: when both the
rendered-size and the original-size attribute are present, replace the
size token built from the rendered size by the one built from the
original size. -/
def resize_if_needed (img_attrs : Attrs) (src : String) (size_name orig_size_name : String) : String :=
  match lookupAttr img_attrs size_name, lookupAttr img_attrs orig_size_name with
  | some size, some orig_size => pyReplace src ("/s" ++ size ++ "/") ("/s" ++ orig_size ++ "/")
  | _, _ => src

/-- Embedding of get_src_resize_if_needed: read the src attribute, then
try the height-based and then the width-based upgrade.  The script only
calls this when src is present; absence is reported as none here. -/
def get_src_resize_if_needed (img_attrs : Attrs) : Option String :=
  (lookupAttr img_attrs "src").map (fun src =>
    resize_if_needed img_attrs
      (resize_if_needed img_attrs src "height" "data-original-height")
      "width" "data-original-width")

/-- Embedding of has_identical_extension: compare the substrings after the
last dot (the whole string when no dot is present), as str.split does. -/
def has_identical_extension (a b : String) : Bool :=
  (splitOnChar '.' a.data).getLastD [] == (splitOnChar '.' b.data).getLastD []

/-- Helper behind the /sN-h/ substitution: given the characters following
a slash, try to match s, one or more digits, then -h/; on success return
the digits and the characters after the final slash of the match. -/
def try_s_dash_h (l : List Char) : Option (List Char × List Char) :=
  match l with
  | 's' :: rest =>
    let digits := rest.takeWhile Char.isDigit
    (match rest.dropWhile Char.isDigit with
     | '-' :: 'h' :: '/' :: tail => if digits.isEmpty then none else some (digits, tail)
     | _ => none)
  | _ => none

/-- Fuelled scanner for the re.sub of /sN-h/ by /sN/: matches are sought
left to right, each match consumes its whole text including the trailing
slash (as re.sub resumes after the matched region), and the replacement
keeps the digits.  Every step consumes at least one character, so fuel
equal to the input length never runs out. -/
def subSDashHAux : Nat → List Char → List Char
  | 0, l => l
  | _ + 1, [] => []
  | fuel + 1, c :: rest =>
    if c = '/' then
      match try_s_dash_h rest with
      | some (digits, tail) => '/' :: 's' :: (digits ++ '/' :: subSDashHAux fuel tail)
      | none => '/' :: subSDashHAux fuel rest
    else c :: subSDashHAux fuel rest

/-- Model of re.sub applied to the fixed raw pattern /(s digits)-h/ with
replacement /group/. -/
def sub_s_dash_h (s : String) : String :=
  String.mk (subSDashHAux s.data.length s.data)

/-- One img element of a post body as the localizer sees it: its
attributes, plus the tag name and attributes of its immediate enclosing
element (find_parent; the document node encloses top-level images). -/
structure Img where
  attrs : Attrs
  parentName : String
  parentAttrs : Attrs
deriving DecidableEq

/-- Which node gets replaced by the fresh local img element. -/
inductive ReplacedNode
  | image
  | parentLink
deriving DecidableEq

/-- Outcome recorded for one img element of the fragment. -/
inductive ImgAction
  | skipped
  | replaced (node : ReplacedNode) (localName : String)
deriving DecidableEq

/-- Result of choosing the source URL for one image (steps before the
redirect normalization): no src attribute, a KeyError reading href of an
enclosing anchor, or a chosen node-to-replace and URL. -/
inductive HrefSelection
  | noSrc
  | missingHref
  | chosen (node : ReplacedNode) (href : String)
deriving DecidableEq

/-- Steps 1 to 3 of the localizer loop body: skip images without src,
compute the resize-upgraded candidate URL, then prefer the enclosing
anchor target when the anchor exists and shares the candidate URL's
extension (reading href of the anchor raises KeyError when absent, which
the script does not catch). -/
def select_href (img : Img) : HrefSelection :=
  match get_src_resize_if_needed img.attrs with
  | none => .noSrc
  | some href =>
    if img.parentName == "a" then
      match lookupAttr img.parentAttrs "href" with
      | none => .missingHref
      | some phref =>
        if has_identical_extension href phref then .chosen .parentLink phref
        else .chosen .image href
    else .chosen .image href

/-- Per-image result before touching network or disk. -/
inductive ImgResolution
  | skipped
  | keyError
  | download (node : ReplacedNode) (url : String) (localName : String)
deriving DecidableEq

/-- Message of the uncaught KeyError raised when an enclosing anchor has
no href attribute. -/
def keyErrorHref : String := "KeyError: href"

/-- Pure part of the localizer loop body: select the source, normalize the
/sN-h/ redirect pattern, and derive the local file name as the final path
segment of the normalized URL. -/
def resolve_image (img : Img) : ImgResolution :=
  match select_href img with
  | .noSrc => .skipped
  | .missingHref => .keyError
  | .chosen node h =>
    let href := sub_s_dash_h h
    .download node href (PurePath.name (parsePath (urlPath href)))

/-- Effectful localizer loop body: resolve, then download and save under
the post folder, recording which node was replaced by the fresh img
element carrying the bare local name. -/
def process_image (net : Net) (folder : List String) (img : Img) (fs : FS) :
    Except PErr (FS × ImgAction) :=
  match resolve_image img with
  | .skipped => .ok (fs, .skipped)
  | .keyError => .error (keyErrorHref, fs)
  | .download node url localName =>
    match download_and_save_image net url (folder ++ [localName]) fs with
    | .error e => .error e
    | .ok fs1 => .ok (fs1, .replaced node localName)

/-- Embedding of replace_images_with_downloaded: process the images found
in the fragment in document order, threading the filesystem and stopping
at the first uncaught exception. -/
def replace_images_with_downloaded (net : Net) (folder : List String) :
    List Img → FS → Except PErr (FS × List ImgAction)
  | [], fs => .ok (fs, [])
  | img :: rest, fs =>
    match process_image net folder img fs with
    | .error e => .error e
    | .ok (fs1, act) =>
      match replace_images_with_downloaded net folder rest fs1 with
      | .error e => .error e
      | .ok (fs2, acts) => .ok (fs2, act :: acts)

/-- One atom link element of a post entry; both attributes are optional in
the XML and ElementTree get returns None when absent. -/
structure Link where
  rel : Option String
  href : Option String
deriving DecidableEq

/-- One atom category element: scheme and term. -/
structure Category where
  scheme : String
  term : String
deriving DecidableEq

/-- Calendar date of the parsed published timestamp (dateutil parse is
modelled as already having produced year, month and day). -/
structure PostDate where
  year : Nat
  month : Nat
  day : Nat
deriving DecidableEq

/-- One post entry as consumed by process_post.  The content field holds
the images BeautifulSoup find_all returns for the body fragment, each
with its immediate parent. -/
structure Post where
  title : String
  links : List Link
  published : PostDate
  author : String
  categories : List Category
  content : List Img
deriving DecidableEq

/-- Command-line options consumed by process_post. -/
structure Options where
  new_root : String
  front_alias : Bool
deriving DecidableEq

/-- Scheme marking user tags among the category elements. -/
def CATEGORY_TAG : String := "http://www.blogger.com/atom/ns#"

/-- Embedding of get_post_tags: the terms of the categories whose scheme
is the tag scheme, in document order. -/
def get_post_tags (post : Post) : List String :=
  (post.categories.filter (fun c => c.scheme == CATEGORY_TAG)).map (fun c => c.term)

/-- Embedding of the published-url lookup: the href of the first link
whose rel attribute equals alternate, None when there is no such link or
when that link has no href attribute. -/
def published_url_of (post : Post) : Option String :=
  (post.links.find? (fun l => l.rel == some "alternate")).bind (fun l => l.href)

/-- Python truthiness of an optional string: None and the empty string are
falsy. -/
def py_truthy : Option String → Bool
  | none => false
  | some s => s != ""

/-- A post is processed as a draft exactly when the script's
if-not-published-url test fires. -/
def is_draft (post : Post) : Bool := !py_truthy (published_url_of post)

/-- Model of the slugify library call with to_lower set: lower-case the
text, then join the maximal alphanumeric runs with single hyphens
(faithful for ASCII input; transliteration of wider alphabets is outside
the model). -/
def slugify (s : String) : String :=
  let spaced := (s.data.map Char.toLower).map (fun c => if c.isAlphanum then c else ' ')
  String.mk (List.intercalate ['-'] ((splitOnChar ' ' spaced).filter (fun w => !w.isEmpty)))

/-- Date formatted as the script does with zero-padded fields. -/
def fmtDate (d : PostDate) : String :=
  padNum 4 d.year ++ "-" ++ padNum 2 d.month ++ "-" ++ padNum 2 d.day

/-- Per-post values computed by the resolver part of process_post. -/
structure Resolution where
  slug : String
  folder : List String
  aliases : List String
  url_map : List (String × String)
deriving DecidableEq

/-- Embedding of the resolver part of process_post: classify the post by
truthiness of the published url, derive slug, destination folder and
aliases, and extend the url map for published posts. -/
def post_resolution (opts : Options) (root : List String) (post : Post)
    (um : List (String × String)) : Resolution :=
  let published_date := fmtDate post.published
  match published_url_of post with
  | some u =>
    if u == "" then
      let slug := slugify post.title
      ⟨slug, root ++ ["draft_posts", published_date ++ "-" ++ slug], [], um⟩
    else
      let p := parsePath (urlPath u)
      ⟨PurePath.stem p,
       root ++ ["post", padNum 4 post.published.year, published_date ++ "-" ++ PurePath.stem p],
       [PurePath.render p],
       um ++ [(u, opts.new_root ++ PurePath.render (PurePath.parent p) ++ "/" ++ PurePath.stem p)]⟩
  | none =>
    let slug := slugify post.title
    ⟨slug, root ++ ["draft_posts", published_date ++ "-" ++ slug], [], um⟩

/-- Front-matter fields the script assembles for one post; aliases is the
optional extra key. -/
structure Metadata where
  title : String
  slug : String
  published : String
  author : String
  tags : List String
  aliases : Option (List String)
deriving DecidableEq

/-- Metadata dictionary built by process_post: the aliases key is present
exactly when the alias list is non-empty and the front_alias flag is set. -/
def post_metadata (opts : Options) (root : List String) (post : Post)
    (um : List (String × String)) : Metadata :=
  let r := post_resolution opts root post um
  ⟨post.title, r.slug, fmtDate post.published, post.author, get_post_tags post,
   if !r.aliases.isEmpty && opts.front_alias then some r.aliases else none⟩

/-- Escape for single-quoted YAML scalars: double every single quote. -/
def escSQ : List Char → List Char
  | [] => []
  | c :: t => if c = sqc then sqc :: sqc :: escSQ t else c :: escSQ t

/-- A single-quoted YAML scalar. -/
def qt (v : List Char) : List Char := sqc :: (escSQ v ++ [sqc])

/-- One block-mapping line: key, colon, space, quoted value. -/
def kvLine (key : String) (v : String) : List Char :=
  key.data ++ ':' :: ' ' :: qt v.data

/-- One block-sequence item line. -/
def listItemLine (v : String) : List Char := '-' :: ' ' :: qt v.data

/-- Lines for one list-valued key: PyYAML block style writes an inline
empty list and otherwise one unindented dash item per element. -/
def listLines (key : String) (vs : List String) : List (List Char) :=
  match vs with
  | [] => [key.data ++ (": []").data]
  | _ :: _ => (key.data ++ [':']) :: vs.map listItemLine

/-- Model of yaml.dump of the metadata dictionary with
default_flow_style=False: keys in sorted order (aliases, author,
published, slug, tags, title), scalars single-quoted.  PyYAML quotes
scalars only when needed; quoting uniformly is an equally valid rendering
that the same parser accepts, and the exact choice is not observable
through the round-trip contract the script relies on. -/
def yamlLines (md : Metadata) : List (List Char) :=
  (match md.aliases with
   | none => []
   | some al => listLines "aliases" al)
  ++ [kvLine "author" md.author, kvLine "published" md.published, kvLine "slug" md.slug]
  ++ listLines "tags" md.tags
  ++ [kvLine "title" md.title]

/-- Join lines with newlines and no trailing newline (the script strips
the trailing newline yaml.dump produces). -/
def joinLines : List (List Char) → List Char
  | [] => []
  | [l] => l
  | l :: l2 :: ls => l ++ '\n' :: joinLines (l2 :: ls)

/-- Document written to index.md: the front matter between lines of three
hyphens, then the converted body, exactly as the script's f-string
assembles it. -/
def documentChars (md : Metadata) (body : List Char) : List Char :=
  ("---\n").data ++ joinLines (yamlLines md) ++ ("\n---\n").data ++ body

/-- Message of the FileExistsError pathlib raises when the destination
folder already exists. -/
def mkdirErrMsg (folder : List String) : String :=
  "FileExistsError: " ++ String.mk (List.intercalate ['/'] (folder.map String.data))

/-- External collaborators of process_post: the network and the
pandoc conversion of the image-rewritten fragment (opaque; the rewritten
fragment is determined by the recorded image actions). -/
structure Env where
  net : Net
  pandoc : List ImgAction → List Char

/-- Embedding of process_post: resolve the post, create the destination
folder fresh (FileExistsError when it already exists, raised before any
content or image of the post is written), localize the images, then write
the assembled document to index.md.  The returned url map reflects the
append performed in the published branch. -/
def process_post (opts : Options) (root : List String) (env : Env) (post : Post)
    (fs : FS) (um : List (String × String)) : Except PErr (FS × List (String × String)) :=
  let r := post_resolution opts root post um
  if r.folder ∈ fs.dirs then .error (mkdirErrMsg r.folder, fs)
  else
    let fs1 := fs.mkdirParents r.folder
    match replace_images_with_downloaded env.net r.folder post.content fs1 with
    | .error e => .error e
    | .ok (fs2, actions) =>
      let doc := documentChars (post_metadata opts root post um) (env.pandoc actions)
      .ok (fs2.writeFile (r.folder ++ ["index.md"]) doc, r.url_map)

/-- The three-hyphen delimiter line. -/
def dashesLine : List Char := ['-', '-', '-']

/-- The front-matter block of a document: the lines strictly between the
opening three-hyphen line and the next three-hyphen line. -/
def extractFrontBlock (doc : List Char) : Option (List (List Char)) :=
  match splitOnChar '\n' doc with
  | first :: rest =>
    if first = dashesLine then some (rest.takeWhile (fun l => l != dashesLine)) else none
  | [] => none

/-- Strip an expected key prefix from a line, character by character. -/
def dropKeyChars : List Char → List Char → Option (List Char)
  | [], l => some l
  | _ :: _, [] => none
  | k :: ks, c :: cs => if c = k then dropKeyChars ks cs else none

/-- Undo the single-quote doubling of escSQ. -/
def unescSQ : List Char → List Char
  | [] => []
  | [c] => [c]
  | c :: c2 :: t =>
    if c = sqc && c2 = sqc then sqc :: unescSQ t
    else c :: unescSQ (c2 :: t)

/-- Read a single-quoted scalar: outer quotes stripped, doubled quotes
undone. -/
def unqt (l : List Char) : Option (List Char) :=
  match l with
  | c :: rest =>
    if c = sqc then
      match rest.reverse with
      | last :: revInit => if last = sqc then some (unescSQ revInit.reverse) else none
      | [] => none
    else none
  | [] => none

/-- Parse one key-value line of the block mapping. -/
def parseKV (key : String) (l : List Char) : Option String :=
  match dropKeyChars (key.data ++ [':', ' ']) l with
  | some r => (unqt r).map String.mk
  | none => none

/-- Collect the leading dash items of a block sequence, returning the
parsed values and the remaining lines. -/
def parseItems : List (List Char) → List String × List (List Char)
  | [] => ([], [])
  | l :: ls =>
    match l with
    | c :: c2 :: rest =>
      if c = '-' && c2 = ' ' then
        match unqt rest with
        | some v =>
          let p := parseItems ls
          (String.mk v :: p.1, p.2)
        | none => ([], l :: ls)
      else ([], l :: ls)
    | _ => ([], l :: ls)

/-- Parse one list-valued key: either the inline empty list or a bare key
line followed by dash items. -/
def parseListSection (key : String) (ls : List (List Char)) :
    Option (List String × List (List Char)) :=
  match ls with
  | l :: rest =>
    if l = key.data ++ (": []").data then some ([], rest)
    else if l = key.data ++ [':'] then some (parseItems rest)
    else none
  | [] => none

/-- Parse a front-matter block back into the metadata fields: an optional
aliases section, then author, published, slug, the tags section and the
title, in the sorted key order the dump emits. -/
def parseFrontMatter (ls : List (List Char)) : Option Metadata :=
  let st : Option (List String) × List (List Char) :=
    match parseListSection "aliases" ls with
    | some (al, rest) => (some al, rest)
    | none => (none, ls)
  match st with
  | (aliasesOpt, la :: lp :: lsl :: restT) =>
    (match parseKV "author" la, parseKV "published" lp, parseKV "slug" lsl with
     | some author, some published, some slug =>
       (match parseListSection "tags" restT with
        | some (tags, [lt]) =>
          (match parseKV "title" lt with
           | some title => some ⟨title, slug, published, author, tags, aliasesOpt⟩
           | none => none)
        | _ => none)
     | _, _, _ => none)
  | _ => none

/-- Spec-side definition (size upgrade, from the specification text): if
the element carries both the rendered-size attribute and the matching
original-size attribute, rewrite the size-token path segment from the
rendered size to the original size, otherwise leave the URL unchanged. -/
def spec_size_upgrade (attrs : Attrs) (renderedAttr origAttr : String) (url : String) : String :=
  match lookupAttr attrs renderedAttr, lookupAttr attrs origAttr with
  | some rendered, some original =>
    pyReplace url ("/s" ++ rendered ++ "/") ("/s" ++ original ++ "/")
  | _, _ => url

/-- Spec-side definition: the HTTP success statuses are the 2xx class. -/
def is_success_status (s : Nat) : Bool := 200 ≤ s && s < 300

/-- Absence of newlines in a field value (single-line scalars). -/
def noNL (s : String) : Prop := '\n' ∉ s.data

instance (s : String) : Decidable (noNL s) := by
  unfold noNL; infer_instance

/-- C4: for every image element carrying both a rendered-size attribute
(height or width) and the matching original-size attribute, the candidate
source URL rewrites the size-token path segment from the rendered to the
original size, height-based upgrade first and then width-based; missing
either attribute of a pair leaves the URL unchanged for that pair; and an
image with no src attribute is skipped entirely. -/
theorem c4_candidate_source_url (net : Net) (folder : List String) (img : Img) (fs : FS) :
    (lookupAttr img.attrs "src" = none →
      process_image net folder img fs = .ok (fs, .skipped)) ∧
    (∀ src, lookupAttr img.attrs "src" = some src →
      get_src_resize_if_needed img.attrs =
        some (spec_size_upgrade img.attrs "width" "data-original-width"
          (spec_size_upgrade img.attrs "height" "data-original-height" src))) ∧
    (∀ url rAttr oAttr,
      lookupAttr img.attrs rAttr = none ∨ lookupAttr img.attrs oAttr = none →
      spec_size_upgrade img.attrs rAttr oAttr url = url) := by
  refine ⟨?_, ?_, ?_⟩
  · intro h
    simp [process_image, resolve_image, select_href, get_src_resize_if_needed, h]
  · intro src h
    simp [get_src_resize_if_needed, h, resize_if_needed, spec_size_upgrade]
  · intro url rAttr oAttr h
    rcases h with h | h
    · simp [spec_size_upgrade, h]
    · simp only [spec_size_upgrade, h]
      cases lookupAttr img.attrs rAttr <;> rfl

/-- Witness for C4: the specification's resize example, and a src-less
image left untouched. -/
theorem c4_witness :
    get_src_resize_if_needed
        [("src", "https://h/x/s320/img.jpg"), ("height", "320"), ("data-original-height", "1600")]
      = some "https://h/x/s1600/img.jpg" ∧
    process_image (fun _ => ⟨200, []⟩) ["out"] ⟨[("alt", "x")], "p", []⟩ ⟨[], []⟩
      = .ok (⟨[], []⟩, .skipped) := by
  constructor
  · have h := (c4_candidate_source_url (fun _ => ⟨200, []⟩) ["out"]
      ⟨[("src", "https://h/x/s320/img.jpg"), ("height", "320"),
        ("data-original-height", "1600")], "p", []⟩ ⟨[], []⟩).2.1
        "https://h/x/s320/img.jpg" (by decide)
    rw [h]; decide
  · exact (c4_candidate_source_url (fun _ => ⟨200, []⟩) ["out"]
      ⟨[("alt", "x")], "p", []⟩ ⟨[], []⟩).1 (by decide)

/-- C6: after a source URL has been selected (resize upgrade and
parent-link override done), the redirect pattern /sN-h/ is rewritten to
/sN/ before anything else happens, and the local filename is the final
path segment of the URL path of that normalized URL. -/
theorem c6_redirect_normalization (img : Img) (node : ReplacedNode) (h : String)
    (hsel : select_href img = .chosen node h) :
    resolve_image img =
      .download node (sub_s_dash_h h)
        (PurePath.name (parsePath (urlPath (sub_s_dash_h h)))) := by
  simp [resolve_image, hsel]

/-- Witness for C6: the specification's /s1600-h/ example is rewritten to
/s1600/ and the filename is the final segment of the rewritten URL. -/
theorem c6_witness :
    resolve_image ⟨[("src", "https://h/x/s1600-h/img.jpg")], "p", []⟩
      = .download .image "https://h/x/s1600/img.jpg" "img.jpg" := by
  have h := c6_redirect_normalization ⟨[("src", "https://h/x/s1600-h/img.jpg")], "p", []⟩
    .image "https://h/x/s1600-h/img.jpg" (by decide)
  rw [h]; decide

/-- C5: when the immediate enclosing element of an image is an anchor
whose target shares the candidate URL's file extension, the anchor's
target is the URL taken for download (subject to the later /sN-h/
normalization) and the anchor, not the image, is the node replaced by the
fresh local img element; otherwise the image element itself is replaced
and its own candidate URL is used. -/
theorem c5_parent_link_override (img : Img) (cand : String)
    (hsrc : get_src_resize_if_needed img.attrs = some cand) :
    (∀ phref, img.parentName = "a" → lookupAttr img.parentAttrs "href" = some phref →
      has_identical_extension cand phref = true →
      resolve_image img =
        .download .parentLink (sub_s_dash_h phref)
          (PurePath.name (parsePath (urlPath (sub_s_dash_h phref)))) ∧
      (∀ (net : Net) (folder : List String) (fs : FS),
        (net (sub_s_dash_h phref)).status_code = 200 →
        process_image net folder img fs =
          .ok (fs.writeFile
                 (folder ++ [PurePath.name (parsePath (urlPath (sub_s_dash_h phref)))])
                 (net (sub_s_dash_h phref)).content,
               .replaced .parentLink
                 (PurePath.name (parsePath (urlPath (sub_s_dash_h phref))))))) ∧
    (∀ phref, img.parentName = "a" → lookupAttr img.parentAttrs "href" = some phref →
      has_identical_extension cand phref = false →
      resolve_image img =
        .download .image (sub_s_dash_h cand)
          (PurePath.name (parsePath (urlPath (sub_s_dash_h cand))))) ∧
    (img.parentName ≠ "a" →
      resolve_image img =
        .download .image (sub_s_dash_h cand)
          (PurePath.name (parsePath (urlPath (sub_s_dash_h cand))))) := by
  refine ⟨?_, ?_, ?_⟩
  · intro phref hp hhref hext
    have hres : resolve_image img =
        .download .parentLink (sub_s_dash_h phref)
          (PurePath.name (parsePath (urlPath (sub_s_dash_h phref)))) := by
      simp [resolve_image, select_href, hsrc, hp, hhref, hext]
    refine ⟨hres, ?_⟩
    intro net folder fs h200
    simp [process_image, hres, download_and_save_image, h200]
  · intro phref hp hhref hext
    simp [resolve_image, select_href, hsrc, hp, hhref, hext]
  · intro hp
    simp [resolve_image, select_href, hsrc, hp]

/-- Witness for C5: the specification's thumbnail-inside-anchor example;
the anchor target full.png is downloaded and the anchor is replaced. -/
theorem c5_witness :
    resolve_image ⟨[("src", "https://h/x/thumb.png")], "a", [("href", "https://h/x/full.png")]⟩
      = .download .parentLink "https://h/x/full.png" "full.png" ∧
    process_image (fun _ => ⟨200, ['F']⟩) ["out"]
        ⟨[("src", "https://h/x/thumb.png")], "a", [("href", "https://h/x/full.png")]⟩ ⟨[], []⟩
      = .ok (FS.writeFile ⟨[], []⟩ ["out", "full.png"] ['F'], .replaced .parentLink "full.png") := by
  have h := (c5_parent_link_override
    ⟨[("src", "https://h/x/thumb.png")], "a", [("href", "https://h/x/full.png")]⟩
    "https://h/x/thumb.png" (by decide)).1 "https://h/x/full.png" rfl (by decide) (by decide)
  constructor
  · rw [h.1]; decide
  · have h2 := h.2 (fun _ => ⟨200, ['F']⟩) ["out"] ⟨[], []⟩ rfl
    rw [h2]; rfl

/-- C10: an image with a src attribute whose immediate enclosing element
is an anchor without an href attribute makes the attribute lookup raise an
uncaught KeyError: the image processing step fails and the whole localizer
pass (hence the run) aborts rather than skipping the image or falling back
to the image's own URL. -/
theorem c10_missing_parent_href_aborts (net : Net) (folder : List String) (img : Img)
    (fs : FS) (rest : List Img) (src : String)
    (hsrc : lookupAttr img.attrs "src" = some src)
    (hpar : img.parentName = "a")
    (hhref : lookupAttr img.parentAttrs "href" = none) :
    process_image net folder img fs = .error (keyErrorHref, fs) ∧
    replace_images_with_downloaded net folder (img :: rest) fs = .error (keyErrorHref, fs) := by
  have hp : process_image net folder img fs = .error (keyErrorHref, fs) := by
    simp [process_image, resolve_image, select_href, get_src_resize_if_needed, hsrc, hpar, hhref]
  exact ⟨hp, by simp [replace_images_with_downloaded, hp]⟩

/-- Witness for C10: a concrete anchor-wrapped image whose anchor has no
href aborts the localizer pass with the KeyError. -/
theorem c10_witness :
    process_image (fun _ => ⟨200, []⟩) ["out"]
        ⟨[("src", "https://h/x/a.png")], "a", [("class", "link")]⟩ ⟨[], []⟩
      = .error (keyErrorHref, ⟨[], []⟩) ∧
    replace_images_with_downloaded (fun _ => ⟨200, []⟩) ["out"]
        [⟨[("src", "https://h/x/a.png")], "a", [("class", "link")]⟩] ⟨[], []⟩
      = .error (keyErrorHref, ⟨[], []⟩) :=
  c10_missing_parent_href_aborts (fun _ => ⟨200, []⟩) ["out"]
    ⟨[("src", "https://h/x/a.png")], "a", [("class", "link")]⟩ ⟨[], []⟩ []
    "https://h/x/a.png" (by decide) rfl (by decide)

/-- C8 (counterexample): status 201 is an HTTP success status, yet the
download raises, so raising is not equivalent to a non-success status. -/
theorem c8_counterexample :
    is_success_status 201 = true ∧
    download_and_save_image (fun _ => ⟨201, []⟩) "http://h/i.png" ["out", "i.png"] ⟨[], []⟩
      = .error (downloadErrMsg "http://h/i.png" 201, ⟨[], []⟩) :=
  ⟨rfl, rfl⟩

/-- C8 (amended): fetching an image raises a fatal error if and only if
the HTTP status code differs from 200; the message reports both the URL
and the status code; on status 200 the response bytes are written to the
derived path; and the outcome depends on the single response for that
URL, with no retry. -/
theorem c8_download_status (net : Net) (url : String) (path : List String) (fs : FS) :
    ((net url).status_code ≠ 200 →
      download_and_save_image net url path fs
        = .error (downloadErrMsg url (net url).status_code, fs) ∧
      (∃ a b, downloadErrMsg url (net url).status_code = a ++ url ++ b) ∧
      (∃ a b, downloadErrMsg url (net url).status_code
        = a ++ toString (net url).status_code ++ b)) ∧
    ((net url).status_code = 200 →
      download_and_save_image net url path fs = .ok (fs.writeFile path (net url).content)) ∧
    (∀ net2 : Net, net2 url = net url →
      download_and_save_image net2 url path fs = download_and_save_image net url path fs) := by
  refine ⟨fun h => ⟨?_, ?_, ?_⟩, fun h => ?_, fun net2 h2 => ?_⟩
  · simp [download_and_save_image, h]
  · exact ⟨"Can" ++ sqcStr ++ "t download image ",
      " ; Status code " ++ toString (net url).status_code,
      by simp [downloadErrMsg, String.append_assoc]⟩
  · exact ⟨"Can" ++ sqcStr ++ "t download image " ++ url ++ " ; Status code ", "",
      by simp [downloadErrMsg, String.append_assoc]⟩
  · simp [download_and_save_image, h]
  · simp [download_and_save_image, h2]

/-- Witness for C8: a 404 response aborts with the message, a 200 response
writes the bytes. -/
theorem c8_witness :
    download_and_save_image (fun _ => ⟨404, []⟩) "http://h/a.png" ["out", "a.png"] ⟨[], []⟩
      = .error (downloadErrMsg "http://h/a.png" 404, ⟨[], []⟩) ∧
    download_and_save_image (fun _ => ⟨200, ['X']⟩) "http://h/a.png" ["out", "a.png"] ⟨[], []⟩
      = .ok (FS.writeFile ⟨[], []⟩ ["out", "a.png"] ['X']) :=
  ⟨((c8_download_status (fun _ => ⟨404, []⟩) "http://h/a.png" ["out", "a.png"] ⟨[], []⟩).1
      (by decide)).1,
   (c8_download_status (fun _ => ⟨200, ['X']⟩) "http://h/a.png" ["out", "a.png"] ⟨[], []⟩).2.1 rfl⟩

/-- C1 (code evaluated at the failing input): two images of one post whose
resolved URLs share the basename img.png; the localizer succeeds and the
second download silently overwrites the first file with different bytes,
instead of failing with a file-already-exists error. -/
theorem c1_silent_overwrite :
    replace_images_with_downloaded
        (fun u => if u == "http://h/a/img.png" then ⟨200, ['A']⟩ else ⟨200, ['B']⟩)
        ["out"]
        [⟨[("src", "http://h/a/img.png")], "p", []⟩, ⟨[("src", "http://h/b/img.png")], "p", []⟩]
        ⟨[], []⟩
      = .ok (⟨[], [(["out", "img.png"], ['B'])]⟩,
             [.replaced .image "img.png", .replaced .image "img.png"]) ∧
    FS.readFile ⟨[], [(["out", "img.png"], ['B'])]⟩ ["out", "img.png"] = some ['B'] ∧
    (['B'] : List Char) ≠ ['A'] :=
  ⟨rfl, rfl, by decide⟩

/-- C2 (counterexample): a post that does have an alternate-relation link,
whose href is the empty string, is nevertheless classified as a draft, so
draftness is not equivalent to the absence of an alternate link. -/
theorem c2_counterexample :
    (({ title := "Hello World", links := [{ rel := some "alternate", href := some "" }],
        published := ⟨2020, 1, 2⟩, author := "A", categories := [], content := [] } : Post)).links.any
        (fun l => l.rel == some "alternate") = true ∧
    is_draft { title := "Hello World", links := [{ rel := some "alternate", href := some "" }],
               published := ⟨2020, 1, 2⟩, author := "A", categories := [], content := [] } = true := by
  decide

/-- C2 (amended): a post is classified as a draft iff its published url
(the href of the first alternate-relation link) is absent or empty; in
particular a post with no alternate-relation link is always a draft.  A
draft's destination folder is draft_posts slash date-hyphen-slugified
title, it never appends a pair to the url map, and it never receives
aliases (no aliases key in its front matter). -/
theorem c2_draft_classification (opts : Options) (root : List String) (post : Post)
    (um : List (String × String)) :
    (is_draft post = true ↔
      published_url_of post = none ∨ published_url_of post = some "") ∧
    (post.links.all (fun l => l.rel != some "alternate") = true → is_draft post = true) ∧
    (is_draft post = true →
      post_resolution opts root post um =
        ⟨slugify post.title,
         root ++ ["draft_posts", fmtDate post.published ++ "-" ++ slugify post.title],
         [], um⟩ ∧
      (post_metadata opts root post um).aliases = none) := by
  have hiff : is_draft post = true ↔
      published_url_of post = none ∨ published_url_of post = some "" := by
    cases h : published_url_of post with
    | none => simp [is_draft, py_truthy, h]
    | some s =>
      by_cases hs : s = "" <;> simp [is_draft, py_truthy, h, hs]
  refine ⟨hiff, ?_, ?_⟩
  · intro hall
    have hfind : post.links.find? (fun l => l.rel == some "alternate") = none := by
      rw [List.find?_eq_none]
      intro l hl
      have := List.all_eq_true.mp hall l hl
      simpa using this
    simp [is_draft, py_truthy, published_url_of, hfind]
  · intro hd
    have hres : post_resolution opts root post um =
        ⟨slugify post.title,
         root ++ ["draft_posts", fmtDate post.published ++ "-" ++ slugify post.title],
         [], um⟩ := by
      rcases hiff.mp hd with h | h <;> simp [post_resolution, h]
    exact ⟨hres, by simp [post_metadata, hres]⟩

/-- Witness for C2: a concrete post without any alternate link lands in
draft_posts with the slugified title, leaves the url map alone and gets
no aliases key. -/
theorem c2_witness :
    post_resolution ⟨"", false⟩ ["out"]
        { title := "Hello World", links := [], published := ⟨2020, 1, 2⟩, author := "A",
          categories := [], content := [] } []
      = ⟨"hello-world", ["out", "draft_posts", "2020-01-02-hello-world"], [], []⟩ ∧
    (post_metadata ⟨"", false⟩ ["out"]
        { title := "Hello World", links := [], published := ⟨2020, 1, 2⟩, author := "A",
          categories := [], content := [] } []).aliases = none := by
  have h := (c2_draft_classification ⟨"", false⟩ ["out"]
    { title := "Hello World", links := [], published := ⟨2020, 1, 2⟩, author := "A",
      categories := [], content := [] } []).2.2 (by decide)
  exact ⟨h.1.trans (by decide), h.2⟩

/-- C3 (counterexample): a post with an alternate-relation link whose href
is empty takes the draft branch: its slug is the slugified title rather
than the link path's final segment with extension stripped, and no pair is
appended to the url map. -/
theorem c3_counterexample :
    (({ title := "Hello World", links := [{ rel := some "alternate", href := some "" }],
        published := ⟨2020, 1, 2⟩, author := "A", categories := [], content := [] } : Post)).links.any
        (fun l => l.rel == some "alternate") = true ∧
    (post_resolution ⟨"", false⟩ ["out"]
        { title := "Hello World", links := [{ rel := some "alternate", href := some "" }],
          published := ⟨2020, 1, 2⟩, author := "A", categories := [], content := [] } []).slug
      = "hello-world" ∧
    PurePath.stem (parsePath (urlPath "")) = "" ∧
    ("hello-world" : String) ≠ "" ∧
    (post_resolution ⟨"", false⟩ ["out"]
        { title := "Hello World", links := [{ rel := some "alternate", href := some "" }],
          published := ⟨2020, 1, 2⟩, author := "A", categories := [], content := [] } []).url_map
      = [] := by
  refine ⟨by decide, by decide, by decide, by decide, by decide⟩

/-- C3 (amended): for every post whose first alternate-relation link
carries a non-empty href, the slug is the final path segment of that
link's URL path with the extension stripped, the destination folder is
output root, post, zero-padded year, date-hyphen-slug, and the pair of
the legacy absolute URL and of the new-root prefix concatenated with the
legacy path's parent directory, a slash and the slug is appended to the
shared url map. -/
theorem c3_published_resolution (opts : Options) (root : List String) (post : Post)
    (um : List (String × String)) (u : String)
    (hu : published_url_of post = some u) (hne : u ≠ "") :
    post_resolution opts root post um =
      ⟨PurePath.stem (parsePath (urlPath u)),
       root ++ ["post", padNum 4 post.published.year,
                fmtDate post.published ++ "-" ++ PurePath.stem (parsePath (urlPath u))],
       [PurePath.render (parsePath (urlPath u))],
       um ++ [(u, opts.new_root ++ PurePath.render (PurePath.parent (parsePath (urlPath u)))
                 ++ "/" ++ PurePath.stem (parsePath (urlPath u)))]⟩ := by
  simp [post_resolution, hu, hne]

/-- Witness for C3: the specification's example link yields slug my-post,
the dated folder under post, the legacy path alias and the url-map pair. -/
theorem c3_witness :
    post_resolution ⟨"https://new.example", true⟩ ["out"]
        { title := "T", links := [⟨some "alternate", some "https://old.example/2019/03/my-post.html"⟩],
          published := ⟨2019, 3, 5⟩, author := "A", categories := [], content := [] } []
      = ⟨"my-post", ["out", "post", "2019", "2019-03-05-my-post"], ["/2019/03/my-post.html"],
         [("https://old.example/2019/03/my-post.html", "https://new.example/2019/03/my-post")]⟩ := by
  have h := c3_published_resolution ⟨"https://new.example", true⟩ ["out"]
    { title := "T", links := [⟨some "alternate", some "https://old.example/2019/03/my-post.html"⟩],
      published := ⟨2019, 3, 5⟩, author := "A", categories := [], content := [] } []
    "https://old.example/2019/03/my-post.html" (by decide) (by decide)
  exact h.trans (by decide)

/-- Writing a file never changes the set of existing directories. -/
theorem writeFile_dirs (fs : FS) (p : List String) (c : List Char) :
    (fs.writeFile p c).dirs = fs.dirs := rfl

/-- A successful download leaves the set of directories unchanged. -/
theorem download_preserves_dirs (net : Net) (url : String) (path : List String)
    (fs fs1 : FS) (h : download_and_save_image net url path fs = .ok fs1) :
    fs1.dirs = fs.dirs := by
  simp only [download_and_save_image] at h
  split at h
  · exact absurd h (by simp)
  · simp only [Except.ok.injEq] at h
    rw [← h]
    rfl

/-- A successful image-processing step leaves the set of directories
unchanged. -/
theorem process_image_preserves_dirs (net : Net) (folder : List String) (img : Img)
    (fs fs1 : FS) (act : ImgAction)
    (h : process_image net folder img fs = .ok (fs1, act)) : fs1.dirs = fs.dirs := by
  unfold process_image at h
  split at h
  · simp only [Except.ok.injEq, Prod.mk.injEq] at h
    rw [← h.1]
  · exact absurd h (by simp)
  · split at h
    · exact absurd h (by simp)
    · rename_i fs2 hdl
      simp only [Except.ok.injEq, Prod.mk.injEq] at h
      rw [← h.1]
      exact download_preserves_dirs _ _ _ _ _ hdl

/-- A successful localizer pass leaves the set of directories unchanged. -/
theorem replace_images_preserves_dirs (net : Net) (folder : List String) :
    ∀ (imgs : List Img) (fs fs1 : FS) (acts : List ImgAction),
      replace_images_with_downloaded net folder imgs fs = .ok (fs1, acts) →
      fs1.dirs = fs.dirs := by
  intro imgs
  induction imgs with
  | nil =>
    intro fs fs1 acts h
    simp only [replace_images_with_downloaded, Except.ok.injEq, Prod.mk.injEq] at h
    rw [← h.1]
  | cons img rest ih =>
    intro fs fs1 acts h
    unfold replace_images_with_downloaded at h
    split at h
    · exact absurd h (by simp)
    · rename_i fsa act hp
      split at h
      · exact absurd h (by simp)
      · rename_i fsb acts2 hr
        simp only [Except.ok.injEq, Prod.mk.injEq] at h
        rw [← h.1]
        exact (ih fsa fsb acts2 hr).trans (process_image_preserves_dirs _ _ _ _ _ _ hp)

/-- The destination folder computed for a post is never the empty path. -/
theorem post_resolution_folder_ne_nil (opts : Options) (root : List String) (post : Post)
    (um : List (String × String)) : (post_resolution opts root post um).folder ≠ [] := by
  cases h : published_url_of post
  · simp [post_resolution, h]
  · rename_i u
    by_cases hu : u = "" <;> simp [post_resolution, h, hu]

/-- A non-empty component path is among its own prefixes. -/
theorem self_mem_prefixesOf (l : List String) (h : l ≠ []) : l ∈ prefixesOf l := by
  have hlen : 0 < l.length := List.length_pos.mpr h
  refine List.mem_map.mpr ⟨l.length - 1, List.mem_range.mpr (by omega), ?_⟩
  rw [Nat.sub_add_cancel hlen]
  exact List.take_length l

/-- C7: when a post's computed destination folder already exists, the run
fails with the FileExistsError before any content or image of that post is
written (the filesystem at the failure is untouched); in particular when
two posts resolve to the same destination folder, the second one aborts
the run and leaves the state produced by the first post unchanged. -/
theorem c7_destination_collision (opts : Options) (root : List String) (env : Env)
    (post : Post) (fs : FS) (um : List (String × String)) :
    ((post_resolution opts root post um).folder ∈ fs.dirs →
      process_post opts root env post fs um
        = .error (mkdirErrMsg (post_resolution opts root post um).folder, fs)) ∧
    (∀ (post2 : Post) (fs1 : FS) (um1 : List (String × String)),
      process_post opts root env post fs um = .ok (fs1, um1) →
      (post_resolution opts root post2 um1).folder = (post_resolution opts root post um).folder →
      process_post opts root env post2 fs1 um1
        = .error (mkdirErrMsg (post_resolution opts root post2 um1).folder, fs1)) := by
  constructor
  · intro h
    simp [process_post, h]
  · intro post2 fs1 um1 hok hfold
    have hmem : (post_resolution opts root post um).folder ∈ fs1.dirs := by
      simp only [process_post] at hok
      split at hok
      · exact absurd hok (by simp)
      · split at hok
        · exact absurd hok (by simp)
        · rename_i fs2 acts hr
          simp only [Except.ok.injEq, Prod.mk.injEq] at hok
          rw [← hok.1, writeFile_dirs,
            replace_images_preserves_dirs env.net _ _ _ _ _ hr]
          show (post_resolution opts root post um).folder ∈
            prefixesOf (post_resolution opts root post um).folder ++ fs.dirs
          exact List.mem_append_left _
            (self_mem_prefixesOf _ (post_resolution_folder_ne_nil opts root post um))
    have hmem2 : (post_resolution opts root post2 um1).folder ∈ fs1.dirs := by
      rw [hfold]; exact hmem
    simp [process_post, hmem2]

/-- Witness for C7: two identical draft posts resolve to the same folder;
the first is processed successfully and the second aborts with the
FileExistsError, leaving the first post's output state untouched. -/
theorem c7_witness :
    ∃ (fs1 : FS) (um1 : List (String × String)),
      process_post ⟨"", false⟩ ["out"] ⟨fun _ => ⟨404, []⟩, fun _ => []⟩
          { title := "Hi", links := [], published := ⟨2020, 1, 2⟩, author := "A",
            categories := [], content := [] } ⟨[], []⟩ []
        = .ok (fs1, um1) ∧
      process_post ⟨"", false⟩ ["out"] ⟨fun _ => ⟨404, []⟩, fun _ => []⟩
          { title := "Hi", links := [], published := ⟨2020, 1, 2⟩, author := "A",
            categories := [], content := [] } fs1 um1
        = .error (mkdirErrMsg (post_resolution ⟨"", false⟩ ["out"]
            { title := "Hi", links := [], published := ⟨2020, 1, 2⟩, author := "A",
              categories := [], content := [] } um1).folder, fs1) := by
  refine ⟨_, _, rfl, ?_⟩
  exact (c7_destination_collision ⟨"", false⟩ ["out"] ⟨fun _ => ⟨404, []⟩, fun _ => []⟩
    { title := "Hi", links := [], published := ⟨2020, 1, 2⟩, author := "A",
      categories := [], content := [] } ⟨[], []⟩ []).2
    { title := "Hi", links := [], published := ⟨2020, 1, 2⟩, author := "A",
      categories := [], content := [] } _ _ rfl rfl

/-- Splitting recovers a separator-free piece placed before a separator. -/
theorem splitOnChar_append_sep (sep : Char) (l rest : List Char) (h : sep ∉ l) :
    splitOnChar sep (l ++ sep :: rest) = l :: splitOnChar sep rest := by
  induction l with
  | nil => simp [splitOnChar]
  | cons c t ih =>
    have hc : ¬c = sep := fun hce => h (hce ▸ List.mem_cons_self c t)
    have ht : sep ∉ t := fun hm => h (List.mem_cons_of_mem c hm)
    rw [List.cons_append]
    simp only [splitOnChar, if_neg hc, ih ht]

/-- Splitting after joinLines recovers the lines, provided none of them
contains a newline. -/
theorem splitOnChar_joinLines (lines : List (List Char)) (rest : List Char)
    (hne : lines ≠ []) (h : ∀ l ∈ lines, '\n' ∉ l) :
    splitOnChar '\n' (joinLines lines ++ '\n' :: rest) = lines ++ splitOnChar '\n' rest := by
  induction lines with
  | nil => exact absurd rfl hne
  | cons l ls ih =>
    cases ls with
    | nil =>
      simp only [joinLines, List.cons_append, List.nil_append]
      rw [splitOnChar_append_sep '\n' l rest (h l (List.mem_cons_self l []))]
    | cons l2 lt =>
      have hstep : joinLines (l :: l2 :: lt) = l ++ '\n' :: joinLines (l2 :: lt) := rfl
      rw [hstep, List.append_assoc, List.cons_append]
      rw [splitOnChar_append_sep '\n' l _ (h l (List.mem_cons_self l _))]
      rw [ih (by simp) (fun x hx => h x (List.mem_cons_of_mem l hx))]
      rfl

/-- takeWhile collects an initial block that satisfies the predicate and
stops at the first element that does not. -/
theorem takeWhile_append_stop {α : Type} (p : α → Bool) (xs : List α) (y : α) (ys : List α)
    (hx : ∀ x ∈ xs, p x = true) (hy : p y = false) :
    (xs ++ y :: ys).takeWhile p = xs := by
  induction xs with
  | nil => simp [List.takeWhile, hy]
  | cons a t ih =>
    rw [List.cons_append]
    simp only [List.takeWhile, hx a (List.mem_cons_self a t)]
    rw [ih (fun x hx2 => hx x (List.mem_cons_of_mem a hx2))]

/-- Escaping produces the empty list only from the empty list. -/
theorem escSQ_eq_nil {l : List Char} : escSQ l = [] ↔ l = [] := by
  cases l with
  | nil => simp [escSQ]
  | cons c t =>
    constructor
    · intro h
      by_cases hc : c = sqc <;> simp [escSQ, hc] at h
    · intro h
      exact absurd h (by simp)

/-- Unescaping undoes the quote doubling of escSQ. -/
theorem unescSQ_escSQ (l : List Char) : unescSQ (escSQ l) = l := by
  induction l with
  | nil => rfl
  | cons c t ih =>
    by_cases hc : c = sqc
    · subst hc
      show unescSQ (escSQ (sqc :: t)) = sqc :: t
      simp only [escSQ, if_pos rfl]
      show unescSQ (sqc :: sqc :: escSQ t) = sqc :: t
      simp [unescSQ, ih]
    · simp only [escSQ, if_neg hc]
      cases h : escSQ t with
      | nil =>
        rw [escSQ_eq_nil.mp h]
        rfl
      | cons d dt =>
        have hstep : unescSQ (c :: d :: dt) = c :: unescSQ (d :: dt) := by
          simp [unescSQ, hc]
        rw [hstep, ← h, ih]

/-- Reading back a quoted scalar yields the original characters. -/
theorem unqt_qt (v : List Char) : unqt (qt v) = some v := by
  simp [unqt, qt, List.reverse_append, unescSQ_escSQ]

/-- Stripping a key prefix from a line that starts with it returns the
rest of the line. -/
theorem dropKeyChars_self (k r : List Char) : dropKeyChars k (k ++ r) = some r := by
  induction k with
  | nil => rfl
  | cons c t ih => simp [dropKeyChars, ih]

/-- Parsing one emitted key-value line returns the emitted value. -/
theorem parseKV_kvLine (key v : String) : parseKV key (kvLine key v) = some v := by
  have hsplit : kvLine key v = (key.data ++ [':', ' ']) ++ qt v.data := by
    simp [kvLine]
  rw [parseKV, hsplit, dropKeyChars_self]
  simp [unqt_qt]

/-- Characters of the escaped text come from the original text or are the
quote character. -/
theorem mem_escSQ {c : Char} {l : List Char} (h : c ∈ escSQ l) : c = sqc ∨ c ∈ l := by
  induction l with
  | nil => simp [escSQ] at h
  | cons a t ih =>
    by_cases ha : a = sqc
    · subst ha
      simp [escSQ] at h
      rcases h with h | h
      · exact Or.inl h
      · rcases ih h with h2 | h2
        · exact Or.inl h2
        · exact Or.inr (List.mem_cons_of_mem _ h2)
    · simp [escSQ, ha] at h
      rcases h with h | h
      · exact Or.inr (List.mem_cons.mpr (Or.inl h))
      · rcases ih h with h2 | h2
        · exact Or.inl h2
        · exact Or.inr (List.mem_cons_of_mem _ h2)

/-- A key-value line whose key starts with a given non-hyphen character is
not the delimiter line, and it contains no newline when neither the key
nor the value does. -/
theorem kvLine_facts (key v : String) (c : Char) (t : List Char)
    (hk : key.data = c :: t) (hc : c ≠ '-')
    (hknl : '\n' ∉ key.data) (hvnl : noNL v) :
    kvLine key v ≠ dashesLine ∧ '\n' ∉ kvLine key v := by
  constructor
  · rw [kvLine, hk, dashesLine]
    intro h
    rw [List.cons_append] at h
    injection h with h1 _
    exact hc h1
  · intro h
    rw [kvLine, qt] at h
    rcases List.mem_append.mp h with h | h
    · exact hknl h
    · rcases List.mem_cons.mp h with h | h
      · exact absurd h (by decide)
      · rcases List.mem_cons.mp h with h | h
        · exact absurd h (by decide)
        · rcases List.mem_cons.mp h with h | h
          · exact absurd h (by decide)
          · rcases List.mem_append.mp h with h | h
            · rcases mem_escSQ h with h2 | h2
              · exact absurd h2 (by decide)
              · exact hvnl h2
            · exact absurd (List.mem_singleton.mp h) (by decide)

/-- A dash item line is not the delimiter line and contains no newline
when its value does not. -/
theorem itemLine_facts (v : String) (hvnl : noNL v) :
    listItemLine v ≠ dashesLine ∧ '\n' ∉ listItemLine v := by
  constructor
  · rw [listItemLine, dashesLine]
    intro h
    injection h with _ h2
    injection h2 with h3 _
    exact absurd h3 (by decide)
  · intro h
    rw [listItemLine, qt] at h
    rcases List.mem_cons.mp h with h | h
    · exact absurd h (by decide)
    · rcases List.mem_cons.mp h with h | h
      · exact absurd h (by decide)
      · rcases List.mem_cons.mp h with h | h
        · exact absurd h (by decide)
        · rcases List.mem_append.mp h with h | h
          · rcases mem_escSQ h with h2 | h2
            · exact absurd h2 (by decide)
            · exact hvnl h2
          · exact absurd (List.mem_singleton.mp h) (by decide)

/-- Every line emitted for a list-valued key is distinct from the
delimiter line and newline-free (key starting with a non-hyphen character,
newline-free key, values newline-free). -/
theorem listLines_facts (key : String) (vs : List String) (c : Char) (t : List Char)
    (hk : key.data = c :: t) (hc : c ≠ '-')
    (hknl : '\n' ∉ key.data) (hvs : ∀ v ∈ vs, noNL v) :
    ∀ l ∈ listLines key vs, l ≠ dashesLine ∧ '\n' ∉ l := by
  intro l hl
  cases vs with
  | nil =>
    simp only [listLines, List.mem_singleton] at hl
    subst hl
    constructor
    · rw [hk, dashesLine]
      intro h
      rw [List.cons_append] at h
      injection h with h1 _
      exact hc h1
    · intro h
      rcases List.mem_append.mp h with h | h
      · exact hknl h
      · exact absurd h (by decide)
  | cons v vt =>
    simp only [listLines, List.mem_cons] at hl
    rcases hl with hl | hl
    · subst hl
      constructor
      · rw [hk, dashesLine]
        intro h
        rw [List.cons_append] at h
        injection h with h1 _
        exact hc h1
      · intro h
        rcases List.mem_append.mp h with h | h
        · exact hknl h
        · exact absurd (List.mem_singleton.mp h) (by decide)
    · rcases List.mem_map.mp hl with ⟨x, hx, hxeq⟩
      subst hxeq
      exact itemLine_facts x (hvs x hx)

/-- Every line of the emitted front matter is distinct from the delimiter
line and newline-free, given newline-free field values. -/
theorem yamlLines_facts (md : Metadata)
    (h1 : noNL md.title) (h2 : noNL md.slug) (h3 : noNL md.published) (h4 : noNL md.author)
    (h5 : ∀ tg ∈ md.tags, noNL tg)
    (h6 : ∀ al, md.aliases = some al → ∀ a ∈ al, noNL a) :
    ∀ l ∈ yamlLines md, l ≠ dashesLine ∧ '\n' ∉ l := by
  intro l hl
  rw [yamlLines] at hl
  rcases List.mem_append.mp hl with hl | hl
  · rcases List.mem_append.mp hl with hl | hl
    · rcases List.mem_append.mp hl with hl | hl
      · cases hal : md.aliases with
        | none => rw [hal] at hl; simp at hl
        | some al =>
          rw [hal] at hl
          exact listLines_facts "aliases" al 'a' _ rfl (by decide) (by decide)
            (h6 al hal) l hl
      · rcases List.mem_cons.mp hl with hl | hl
        · exact hl ▸ kvLine_facts "author" md.author 'a' _ rfl (by decide) (by decide) h4
        · rcases List.mem_cons.mp hl with hl | hl
          · exact hl ▸ kvLine_facts "published" md.published 'p' _ rfl (by decide) (by decide) h3
          · rcases List.mem_singleton.mp hl with hl
            exact hl ▸ kvLine_facts "slug" md.slug 's' _ rfl (by decide) (by decide) h2
    · exact listLines_facts "tags" md.tags 't' _ rfl (by decide) (by decide) h5 l hl
  · rcases List.mem_singleton.mp hl with hl
    exact hl ▸ kvLine_facts "title" md.title 't' _ rfl (by decide) (by decide) h1

/-- Rebuilding a string from its characters is the identity. -/
theorem stringMk_data (s : String) : String.mk s.data = s := rfl

/-- Two lists differing in their second element are different. -/
theorem ne_of_second (a b : List Char) (c1 d1 c2 d2 : Char) (t1 t2 : List Char)
    (ha : a = c1 :: d1 :: t1) (hb : b = c2 :: d2 :: t2) (h : d1 ≠ d2) : a ≠ b := by
  subst ha
  subst hb
  intro he
  injection he with _ he2
  injection he2 with he3 _
  exact h he3

/-- A key-value line whose key starts with a non-hyphen character is not a
dash item line. -/
theorem kvLine_not_item (key v : String) (c : Char) (t : List Char)
    (hk : key.data = c :: t) (hc : c ≠ '-') :
    ∀ r, kvLine key v ≠ '-' :: ' ' :: r := by
  intro r h
  rw [kvLine, hk, List.cons_append] at h
  injection h with h1 _
  exact hc h1

/-- Collecting dash items of emitted lines returns the emitted values and
stops exactly at the first following line. -/
theorem parseItems_emit (vs : List String) (rest : List (List Char))
    (hrest : ∀ l, rest.head? = some l → ∀ r, l ≠ '-' :: ' ' :: r) :
    parseItems (vs.map listItemLine ++ rest) = (vs, rest) := by
  induction vs with
  | nil =>
    simp only [List.map_nil, List.nil_append]
    cases rest with
    | nil => rfl
    | cons l ls =>
      cases l with
      | nil => rfl
      | cons c cs =>
        cases cs with
        | nil => rfl
        | cons c2 cr =>
          have hcond : ¬((c = '-' && c2 = ' ') = true) := by
            intro hb
            rw [Bool.and_eq_true, decide_eq_true_eq, decide_eq_true_eq] at hb
            exact hrest (c :: c2 :: cr) rfl cr (by rw [hb.1, hb.2])
          simp only [parseItems, if_neg hcond]
  | cons v vt ih =>
    simp only [List.map_cons, List.cons_append]
    show parseItems (listItemLine v :: (vt.map listItemLine ++ rest)) = (v :: vt, rest)
    simp only [parseItems, listItemLine]
    rw [if_pos (by decide)]
    simp only [unqt_qt, ih, stringMk_data]

/-- Parsing one emitted list section returns the emitted values and the
following lines. -/
theorem parseListSection_emit (key : String) (vs : List String) (rest : List (List Char))
    (hrest : ∀ l, rest.head? = some l → ∀ r, l ≠ '-' :: ' ' :: r) :
    parseListSection key (listLines key vs ++ rest) = some (vs, rest) := by
  cases vs with
  | nil =>
    simp only [listLines, List.singleton_append, parseListSection]
    simp
  | cons v vt =>
    simp only [listLines, List.cons_append, parseListSection]
    have hne : ¬(key.data ++ [':'] = key.data ++ (": []").data) := by
      intro h
      have h2 := List.append_cancel_left h
      exact absurd h2 (by decide)
    rw [if_neg hne]
    simp only [if_true]
    rw [parseItems_emit (v :: vt) rest hrest]

/-- Parsing the emitted front-matter lines returns exactly the metadata
that was emitted. -/
theorem parseFrontMatter_emit (md : Metadata) :
    parseFrontMatter (yamlLines md) = some md := by
  have hTitleItem : ∀ r, kvLine "title" md.title ≠ '-' :: ' ' :: r :=
    kvLine_not_item "title" md.title 't' _ rfl (by decide)
  have hAuthItem : ∀ r, kvLine "author" md.author ≠ '-' :: ' ' :: r :=
    kvLine_not_item "author" md.author 'a' _ rfl (by decide)
  have htags : parseListSection "tags" (listLines "tags" md.tags ++ [kvLine "title" md.title])
      = some (md.tags, [kvLine "title" md.title]) :=
    parseListSection_emit "tags" md.tags [kvLine "title" md.title]
      (fun l hl r => by
        simp only [List.head?_cons, Option.some.injEq] at hl
        exact hl ▸ hTitleItem r)
  cases hal : md.aliases with
  | none =>
    have hne1 : kvLine "author" md.author ≠ "aliases".data ++ (": []").data :=
      ne_of_second _ _ 'a' 'u' 'a' 'l' _ _ rfl rfl (by decide)
    have hne2 : kvLine "author" md.author ≠ "aliases".data ++ [':'] :=
      ne_of_second _ _ 'a' 'u' 'a' 'l' _ _ rfl rfl (by decide)
    have hyaml : yamlLines md = kvLine "author" md.author :: kvLine "published" md.published ::
        kvLine "slug" md.slug :: (listLines "tags" md.tags ++ [kvLine "title" md.title]) := by
      rw [yamlLines, hal]
      simp
    have halias : parseListSection "aliases"
        (kvLine "author" md.author :: kvLine "published" md.published ::
         kvLine "slug" md.slug :: (listLines "tags" md.tags ++ [kvLine "title" md.title]))
        = none := by
      simp only [parseListSection, if_neg hne1, if_neg hne2]
    simp only [parseFrontMatter, hyaml, halias, parseKV_kvLine, htags]
    rw [← hal]
  | some al =>
    have hyaml : yamlLines md = listLines "aliases" al ++
        (kvLine "author" md.author :: kvLine "published" md.published ::
         kvLine "slug" md.slug :: (listLines "tags" md.tags ++ [kvLine "title" md.title])) := by
      rw [yamlLines, hal]
      simp
    have halias : parseListSection "aliases" (listLines "aliases" al ++
        (kvLine "author" md.author :: kvLine "published" md.published ::
         kvLine "slug" md.slug :: (listLines "tags" md.tags ++ [kvLine "title" md.title])))
        = some (al, kvLine "author" md.author :: kvLine "published" md.published ::
            kvLine "slug" md.slug :: (listLines "tags" md.tags ++ [kvLine "title" md.title])) :=
      parseListSection_emit "aliases" al _
        (fun l hl r => by
          simp only [List.head?_cons, Option.some.injEq] at hl
          exact hl ▸ hAuthItem r)
    simp only [parseFrontMatter, hyaml, halias, parseKV_kvLine, htags]
    rw [← hal]

/-- Emitted front matter always has at least one line. -/
theorem yamlLines_ne_nil (md : Metadata) : yamlLines md ≠ [] := by
  rw [yamlLines]
  simp

/-- Extracting the block between the three-hyphen delimiter lines of the
written document recovers exactly the emitted front-matter lines. -/
theorem extractFrontBlock_emit (md : Metadata) (body : List Char)
    (hfacts : ∀ l ∈ yamlLines md, l ≠ dashesLine ∧ '\n' ∉ l) :
    extractFrontBlock (documentChars md body) = some (yamlLines md) := by
  have hnl : ∀ l ∈ yamlLines md, '\n' ∉ l := fun l hl => (hfacts l hl).2
  have hndash : ∀ l ∈ yamlLines md, l ≠ dashesLine := fun l hl => (hfacts l hl).1
  have hdoc : documentChars md body
      = dashesLine ++ '\n' :: (joinLines (yamlLines md) ++ '\n' :: (dashesLine ++ '\n' :: body)) := by
    rw [documentChars, List.append_assoc, List.append_assoc]
    rfl
  have hsplit : splitOnChar '\n' (documentChars md body)
      = dashesLine :: (yamlLines md ++ dashesLine :: splitOnChar '\n' body) := by
    rw [hdoc]
    rw [splitOnChar_append_sep '\n' dashesLine _ (by decide)]
    rw [splitOnChar_joinLines (yamlLines md) _ (yamlLines_ne_nil md) hnl]
    rw [splitOnChar_append_sep '\n' dashesLine _ (by decide)]
  simp only [extractFrontBlock, hsplit]
  simp only [if_true]
  rw [takeWhile_append_stop _ _ _ _ (fun x hx => by simpa using hndash x hx) (by simp)]

/-- C9: the front-matter block the converter emits between the
three-hyphen delimiter lines is recovered intact from the written
document, and parsing it back reproduces exactly the title, slug,
published date, author and ordered tag list (and optional aliases) that
were supplied, for single-line field values. -/
theorem c9_front_matter_round_trip (md : Metadata) (body : List Char)
    (h1 : noNL md.title) (h2 : noNL md.slug) (h3 : noNL md.published) (h4 : noNL md.author)
    (h5 : ∀ tg ∈ md.tags, noNL tg)
    (h6 : ∀ al, md.aliases = some al → ∀ a ∈ al, noNL a) :
    extractFrontBlock (documentChars md body) = some (yamlLines md) ∧
    parseFrontMatter (yamlLines md) = some md :=
  ⟨extractFrontBlock_emit md body (yamlLines_facts md h1 h2 h3 h4 h5 h6),
   parseFrontMatter_emit md⟩

/-- Witness for C9: a concrete metadata record with tags and an alias
survives the emit-extract-parse round trip. -/
theorem c9_witness :
    extractFrontBlock (documentChars ⟨"My Title", "my-post", "2019-03-05", "Jo", ["a", "b"],
        some ["/2019/03/my-post.html"]⟩ ("Body text.").data)
      = some (yamlLines ⟨"My Title", "my-post", "2019-03-05", "Jo", ["a", "b"],
        some ["/2019/03/my-post.html"]⟩) ∧
    parseFrontMatter (yamlLines ⟨"My Title", "my-post", "2019-03-05", "Jo", ["a", "b"],
        some ["/2019/03/my-post.html"]⟩)
      = some ⟨"My Title", "my-post", "2019-03-05", "Jo", ["a", "b"],
        some ["/2019/03/my-post.html"]⟩ :=
  c9_front_matter_round_trip _ _ (by decide) (by decide) (by decide) (by decide)
    (by decide) (fun al hal => by injection hal with h; subst h; decide)
